import Mathlib

/-!
Shallow embedding of the wanikani-trainer pipeline.

Python strings are modelled as `List Char`; each Python string operation used
by the scripts (`str.strip`, `str.split("\n")`, `str.startswith`,
`str.replace(old, "")`, the `in` substring test) is embedded as a structurally
recursive Lean function on `List Char`.

Embedded scripts:
  * `generate_sentences.py` — the line-oriented completion parser and the
    per-word synthesis wrapper (`generate_sentences`, `main` batch loop);
  * `sync_to_pwa.py` — the warn-only validator/cleaner in `main`;
  * `sync_to_wanikani.py` — the review-sync tally and archive decision;
  * `fetch_vocab.py` — the vocabulary extraction sort key.
-/

/-- Coerce a Lean string literal to the `List Char` model. -/
def str (s : String) : List Char := s.data

/-- The whitespace set of Python `str.strip` (ASCII part). -/
def pyIsSpace (c : Char) : Bool :=
  c == ' ' || c == '\t' || c == '\n' || c == '\r' || c == Char.ofNat 11 || c == Char.ofNat 12

/-- Python `s.strip()`: drop whitespace from both ends. -/
def pyStrip (s : List Char) : List Char :=
  ((s.dropWhile pyIsSpace).reverse.dropWhile pyIsSpace).reverse

/-- Python `s.split("\n")`: split at every newline, keeping empty pieces. -/
def splitNewline : List Char → List (List Char)
  | [] => [[]]
  | c :: rest =>
    let r := splitNewline rest
    if c == '\n' then [] :: r
    else
      match r with
      | [] => [[c]]
      | h :: t => (c :: h) :: t

/-- Python `s.startswith(p)`: `startsWithList s p` is true when `p` is a
prefix of `s`. -/
def startsWithList : List Char → List Char → Bool
  | _, [] => true
  | [], _ :: _ => false
  | a :: as, b :: bs => a == b && startsWithList as bs

/-- Python `needle in hay`: the literal substring test. -/
def strContains (hay needle : List Char) : Bool :=
  startsWithList hay needle ||
    match hay with
    | [] => false
    | _ :: t => strContains t needle

/-- Scanner for `removeAll`: while `skip > 0` the current character belongs
to an already-matched occurrence and is elided; at `skip = 0` a fresh match
of `old` elides the current character and schedules the remaining
`old.length - 1` characters for elision. -/
def removeAllGo (old : List Char) : List Char → Nat → List Char
  | [], _ => []
  | _ :: rest, skip + 1 => removeAllGo old rest skip
  | c :: rest, 0 =>
    if startsWithList (c :: rest) old && !old.isEmpty then
      removeAllGo old rest (old.length - 1)
    else
      c :: removeAllGo old rest 0

/-- Python `s.replace(old, "")`: remove every non-overlapping occurrence of
`old`, scanning left to right. -/
def removeAll (old s : List Char) : List Char :=
  removeAllGo old s 0

/-! ### Data model -/

/-- `Sentence`: one japanese/english pair produced by the completion parser. -/
structure Sentence where
  japanese : List Char
  english : List Char
deriving DecidableEq, Repr

/-- `VocabularyItem` as loaded from `data/vocab.json`
(`fetch_vocab.extract_vocab_data` output): `word.get("id")` may be absent,
hence the `Option`. -/
structure VocabWord where
  id : Option Int
  characters : List Char
  reading : List Char
  meaning : List Char
  level : Int
deriving DecidableEq, Repr

/-- `SentenceSet`: the per-word record built by `generate_sentences`. -/
structure SentenceSet where
  subject_id : Option Int
  word : List Char
  reading : List Char
  meaning : List Char
  level : Int
  sentences : List Sentence
deriving DecidableEq, Repr

/-! ### The completion parser (`generate_sentences.py` lines 104–122) -/

def labelS1JP : List Char := str "SENTENCE1_JP:"
def labelS1EN : List Char := str "SENTENCE1_EN:"
def labelS2JP : List Char := str "SENTENCE2_JP:"
def labelS2EN : List Char := str "SENTENCE2_EN:"

/-- The mutable `current` dict: it may hold a `japanese` and/or an
`english` key. -/
structure PendRec where
  japanese : Option (List Char)
  english : Option (List Char)
deriving DecidableEq, Repr

/-- Strip a label from a stripped line and strip the remainder
(`line.replace(LABEL, "").strip()`). -/
def stripLabel (label line : List Char) : List Char :=
  pyStrip (removeAll label line)

/-- One iteration of the parser loop of `generate_sentences` over a raw line:
state is `(current, sentences)`.  Note the asymmetry copied from the source:
the `SENTENCE1_EN` branch resets `current = {}` after appending, the
`SENTENCE2_EN` branch does not. -/
def parseStep (st : PendRec × List Sentence) (rawLine : List Char) :
    PendRec × List Sentence :=
  let line := pyStrip rawLine
  if startsWithList line labelS1JP then
    ({ st.1 with japanese := some (stripLabel labelS1JP line) }, st.2)
  else if startsWithList line labelS1EN then
    let e := stripLabel labelS1EN line
    match st.1.japanese with
    | some j => (⟨none, none⟩, st.2 ++ [⟨j, e⟩])
    | none => ({ st.1 with english := some e }, st.2)
  else if startsWithList line labelS2JP then
    ({ st.1 with japanese := some (stripLabel labelS2JP line) }, st.2)
  else if startsWithList line labelS2EN then
    let e := stripLabel labelS2EN line
    match st.1.japanese with
    | some j => ({ st.1 with english := some e }, st.2 ++ [⟨j, e⟩])
    | none => ({ st.1 with english := some e }, st.2)
  else st

/-- The parser loop over a list of raw lines, starting from `current = {}`,
`sentences = []`. -/
def parseLines (lines : List (List Char)) : List Sentence :=
  (lines.foldl parseStep (⟨none, none⟩, [])).2

/-- Parse a whole completion: `response.strip().split("\n")`, then the loop. -/
def parseResponse (response : List Char) : List Sentence :=
  parseLines (splitNewline (pyStrip response))

/-- `generate_sentences word call_llm`: the backend call either yields a
completion or raises (`Except.error`); in the latter case the `except` clause
returns the record with an empty `sentences` list. -/
def generate_sentences (word : VocabWord) (callResult : Except Unit (List Char)) :
    SentenceSet :=
  match callResult with
  | .ok response =>
    { subject_id := word.id
      word := word.characters
      reading := word.reading
      meaning := word.meaning
      level := word.level
      sentences := parseResponse response }
  | .error _ =>
    { subject_id := word.id
      word := word.characters
      reading := word.reading
      meaning := word.meaning
      level := word.level
      sentences := [] }

/-- The batch loop of `generate_sentences.main`: items processed sequentially,
every item appends a result regardless of backend failure. -/
def generateBatch (vocab : List VocabWord)
    (backend : VocabWord → Except Unit (List Char)) : List SentenceSet :=
  vocab.map (fun w => generate_sentences w (backend w))

/-! ### The validator/cleaner (`sync_to_pwa.py` lines 34–55) -/

/-- The correctness predicate of the validator: the target word's exact
written characters occur literally in the sentence's japanese text
(`target_word in sentence['japanese']`). -/
def sentenceValid (target : List Char) (s : Sentence) : Bool :=
  strContains s.japanese target

/-- The inner loop over one item's sentences: every sentence is appended to
`valid_sentences`; a sentence failing the predicate increments the global
`warning_count`. -/
def cleanItemSentences (target : List Char) (wc : Nat) (sentences : List Sentence) :
    List Sentence × Nat :=
  sentences.foldl
    (fun acc s =>
      (acc.1 ++ [s], if sentenceValid target s then acc.2 else acc.2 + 1))
    ([], wc)

/-- The body of the `for item in data` loop of `sync_to_pwa.main`: run the
inner sentence loop, then append the item (with its `valid_sentences`) only
when `valid_sentences` is non-empty (`if valid_sentences:`). -/
def cleanStep (acc : List SentenceSet × Nat) (item : SentenceSet) :
    List SentenceSet × Nat :=
  let pr := cleanItemSentences item.word acc.2 item.sentences
  if pr.1.isEmpty then (acc.1, pr.2)
  else (acc.1 ++ [{ item with sentences := pr.1 }], pr.2)

/-- The warn-only cleaning pass of `sync_to_pwa.main`: items are re-emitted
with their (fully kept) sentence lists, but only when `valid_sentences` is
non-empty; `warning_count` accumulates across the whole collection. -/
def cleanData (data : List SentenceSet) : List SentenceSet × Nat :=
  data.foldl cleanStep ([], 0)

/-- Total number of predicate failures across a collection. -/
def totalWarnings (data : List SentenceSet) : Nat :=
  (data.map (fun it => it.sentences.countP (fun s => !sentenceValid it.word s))).sum

/-- Modelled from the spec: the strict-filter validator policy is absent from
`src/` (the spec records it as the other of "two divergent validator policies
... across versions").  Per the spec's words: "sentences failing the predicate
are discarded; a vocabulary item with zero surviving sentences is dropped
entirely from the output collection", and the pass "must report an aggregate
count of affected sentences after processing the full collection". -/
def strictStep (acc : List SentenceSet × Nat) (item : SentenceSet) :
    List SentenceSet × Nat :=
  let kept := item.sentences.filter (fun s => sentenceValid item.word s)
  let removed := acc.2 + (item.sentences.length - kept.length)
  if kept.isEmpty then (acc.1, removed)
  else (acc.1 ++ [{ item with sentences := kept }], removed)

/-- Modelled from the spec: the strict-filter pass over the whole
collection. -/
def strictClean (data : List SentenceSet) : List SentenceSet × Nat :=
  data.foldl strictStep ([], 0)

/-- Modelled from the spec: the operator-selectable validator policy
("Two supported policies (must both be implementable, selectable by the
operator)"). -/
inductive ValidatorPolicy where
  | strict
  | warnOnly
deriving DecidableEq, Repr

/-- Modelled from the spec: dispatch on the operator-selected policy. -/
def runValidator : ValidatorPolicy → List SentenceSet → List SentenceSet × Nat
  | .strict => strictClean
  | .warnOnly => cleanData

/-! ### Review sync (`sync_to_wanikani.py`) -/

/-- `EasyReview`: one record of `pwa/easy_reviews.json`; `item.get("subject_id")`
may be absent. -/
structure EasyReview where
  subject_id : Option Int
  word : List Char
deriving DecidableEq, Repr

/-- Python truthiness test `not subject_id`: missing key or id `0`. -/
def falsyId : Option Int → Bool
  | none => true
  | some n => n == 0

/-- The counting loop of `sync_to_wanikani.main`: a falsy `subject_id` counts
as failed and skips the call; otherwise `create_review` (modelled by the
oracle `review`, which already converts 422/other statuses and exceptions to
`false`) decides success vs failure. Returns `(success, failed)`. -/
def syncTally (reviews : List EasyReview) (review : Int → Bool) : Nat × Nat :=
  reviews.foldl
    (fun acc item =>
      if falsyId item.subject_id then (acc.1, acc.2 + 1)
      else if review (item.subject_id.getD 0) then (acc.1 + 1, acc.2)
      else (acc.1, acc.2 + 1))
    (0, 0)

/-- The archive JSON written by `sync_to_wanikani.main` (the `synced_at`
wall-clock timestamp is not modelled). -/
structure ArchiveRecord where
  success : Nat
  failed : Nat
  items : List EasyReview
deriving DecidableEq, Repr

/-- Observable file effects of one `sync_to_wanikani.main` run. -/
structure SyncOutcome where
  archive : Option ArchiveRecord
  pendingRemoved : Bool
deriving DecidableEq, Repr

/-- `sync_to_wanikani.main`: an empty pending collection returns early;
otherwise the archive is written and `easy_reviews.json` unlinked exactly
when `success > 0`. -/
def syncMain (reviews : List EasyReview) (review : Int → Bool) : SyncOutcome :=
  if reviews.isEmpty then ⟨none, false⟩
  else
    let t := syncTally reviews review
    if 0 < t.1 then ⟨some ⟨t.1, t.2, reviews⟩, true⟩ else ⟨none, false⟩

/-! ### Vocabulary extraction (`fetch_vocab.py` lines 62–96) -/

structure SubjectReading where
  reading : List Char
  primary : Bool
deriving DecidableEq, Repr

structure SubjectMeaning where
  meaning : List Char
  primary : Bool
deriving DecidableEq, Repr

/-- The `data` part of a WaniKani subject. -/
structure Subject where
  characters : List Char
  readings : List SubjectReading
  meanings : List SubjectMeaning
  level : Int
deriving DecidableEq, Repr

/-- The `data` part of a WaniKani assignment. -/
structure Assignment where
  subject_id : Int
  srs_stage : Int
deriving DecidableEq, Repr

/-- One row of `data/vocab.json`. -/
structure VocabEntry where
  id : Int
  characters : List Char
  reading : List Char
  meaning : List Char
  level : Int
  srs_stage : Int
deriving DecidableEq, Repr

/-- `next((r["reading"] for r in readings if r["primary"]), readings[0].get("reading", ""))`. -/
def primaryReading (rs : List SubjectReading) : List Char :=
  match rs.find? (fun r => r.primary) with
  | some r => r.reading
  | none => (rs.headD ⟨[], false⟩).reading

/-- `next((m["meaning"] for m in meanings if m["primary"]), meanings[0].get("meaning", ""))`. -/
def primaryMeaning (ms : List SubjectMeaning) : List Char :=
  match ms.find? (fun m => m.primary) with
  | some m => m.meaning
  | none => (ms.headD ⟨[], false⟩).meaning

/-- The ascending sort order of `vocab_list.sort(key=lambda x: (x["srs_stage"], x["level"]))`:
lexicographic on the pair `(srs_stage, level)`. -/
def vocabKeyLe (a b : VocabEntry) : Prop :=
  a.srs_stage < b.srs_stage ∨ (a.srs_stage = b.srs_stage ∧ a.level ≤ b.level)

instance : DecidableRel vocabKeyLe := fun a b =>
  inferInstanceAs (Decidable
    (a.srs_stage < b.srs_stage ∨ (a.srs_stage = b.srs_stage ∧ a.level ≤ b.level)))

instance : IsTotal VocabEntry vocabKeyLe :=
  ⟨fun a b => by unfold vocabKeyLe; omega⟩

instance : IsTrans VocabEntry vocabKeyLe :=
  ⟨fun a b c hab hbc => by
    unfold vocabKeyLe at hab hbc ⊢; omega⟩

/-- `extract_vocab_data`: build one entry per assignment whose subject is
known (the `continue` of the loop is the `filterMap` miss), then sort
ascending by `(srs_stage, level)` (Python's stable `list.sort`, modelled by a
sort producing the same ascending order). -/
def extract_vocab_data (assignments : List Assignment) (subjects : Int → Option Subject) :
    List VocabEntry :=
  let vocab_list := assignments.filterMap
    (fun a =>
      (subjects a.subject_id).map
        (fun subj =>
          { id := a.subject_id
            characters := subj.characters
            reading := primaryReading subj.readings
            meaning := primaryMeaning subj.meanings
            level := subj.level
            srs_stage := a.srs_stage }))
  List.insertionSort vocabKeyLe vocab_list

/-- A raw line that the parser recognizes as an English label
(`SENTENCE1_EN:` or `SENTENCE2_EN:` after stripping). -/
def isENLine (l : List Char) : Bool :=
  startsWithList (pyStrip l) labelS1EN || startsWithList (pyStrip l) labelS2EN

/-- A raw line that the parser recognizes as a Japanese label
(`SENTENCE1_JP:` or `SENTENCE2_JP:` after stripping). -/
def isJPLine (l : List Char) : Bool :=
  startsWithList (pyStrip l) labelS1JP || startsWithList (pyStrip l) labelS2JP

/-- A raw line carrying any of the four labels. -/
def isLabelLine (l : List Char) : Bool := isJPLine l || isENLine l

/-- The japanese text the parser extracts from a Japanese-labeled line
(the `SENTENCE1_JP` branch strips its own label, the `SENTENCE2_JP` branch
its own). -/
def jpPayload (l : List Char) : List Char :=
  if startsWithList (pyStrip l) labelS1JP then stripLabel labelS1JP (pyStrip l)
  else stripLabel labelS2JP (pyStrip l)

/-- The english text the parser extracts from an English-labeled line. -/
def enPayload (l : List Char) : List Char :=
  if startsWithList (pyStrip l) labelS1EN then stripLabel labelS1EN (pyStrip l)
  else stripLabel labelS2EN (pyStrip l)

/-! ### Concrete inputs used by witnesses and counterexamples -/

/-- A completion in which a duplicated English label follows a completed
second pair. -/
def dupENCompletion : List Char :=
  str "SENTENCE2_JP: 危ない\nSENTENCE2_EN: Danger\nSENTENCE2_EN: Run"

def exLine1 : List Char := str "SENTENCE1_JP: ゾンビに噛まれたので、急いで病院に行きました！"
def exLine2 : List Char := str "SENTENCE1_EN: I was bitten by a zombie"
def exLine3 : List Char := str "SENTENCE2_JP: この病院の院長は宇宙人です"
def exLine4 : List Char := str "SENTENCE2_EN: The director is an alien"

/-- The spec's example well-formed completion, with two labeled pairs. -/
def exResponse : List Char :=
  str "SENTENCE1_JP: ゾンビに噛まれたので、急いで病院に行きました！\nSENTENCE1_EN: I was bitten by a zombie\nSENTENCE2_JP: この病院の院長は宇宙人です\nSENTENCE2_EN: The director is an alien"

/-- A vocabulary item used by the batch-failure witness. -/
def exWord : VocabWord := ⟨some 1, str "火", str "ひ", str "fire", 4⟩

/-- A `SentenceSet` with an empty sentences list (the shape produced for a
word whose backend call failed). -/
def emptyItem : SentenceSet := ⟨some 1, str "火", str "ひ", str "fire", 4, []⟩

/-- The spec's example review batch: 3 items, one missing `subject_id`. -/
def exReviews : List EasyReview :=
  [⟨some 7, str "火"⟩, ⟨none, str "水"⟩, ⟨some 9, str "木"⟩]

/-- An oracle for `create_review` that always reports status 201. -/
def exOracle : Int → Bool := fun _ => true

/-- An oracle for `create_review` under which every call fails. -/
def failOracle : Int → Bool := fun _ => false

/-- A completion mixing malformed labels with one well-formed pair: an
out-of-order English label first, then a Japanese label, an unlabeled line,
its English label, and a trailing unpaired Japanese label. -/
def mixedCompletion : List Char :=
  str "SENTENCE1_EN: Out\nSENTENCE1_JP: 危ない\nblah\nSENTENCE1_EN: Danger\nSENTENCE2_JP: 捨てられた"

def exAssignments : List Assignment := [⟨5, 3⟩, ⟨6, 1⟩]

def exSubjects : Int → Option Subject := fun n =>
  if n = 5 then some ⟨str "火", [⟨str "ひ", true⟩], [⟨str "fire", true⟩], 2⟩
  else if n = 6 then some ⟨str "水", [⟨str "みず", true⟩], [⟨str "water", true⟩], 1⟩
  else none

/-! ### String lemmas -/

theorem startsWithList_iff (s p : List Char) :
    startsWithList s p = true ↔ p <+: s := by
  induction p generalizing s with
  | nil => simp [startsWithList, List.nil_prefix]
  | cons b bs ih =>
    cases s with
    | nil => simp [startsWithList, List.prefix_nil]
    | cons a as =>
      rw [startsWithList, List.cons_prefix_cons, Bool.and_eq_true, beq_iff_eq, ih]
      exact and_congr_left (fun _ => eq_comm)

theorem strContains_iff (hay needle : List Char) :
    strContains hay needle = true ↔ needle <:+: hay := by
  induction hay with
  | nil =>
    simp [strContains, startsWithList_iff, List.infix_nil, List.prefix_nil]
  | cons c t ih =>
    rw [strContains]
    simp [startsWithList_iff, ih, List.infix_cons_iff]

theorem startsWithList_unique {s p q : List Char} (hne : p ≠ q)
    (hlen : p.length = q.length) (hp : startsWithList s p = true) :
    startsWithList s q = false := by
  by_contra h
  rw [Bool.not_eq_false, startsWithList_iff] at h
  rw [startsWithList_iff] at hp
  obtain ⟨t1, ht1⟩ := hp
  obtain ⟨t2, ht2⟩ := h
  exact hne (List.append_inj_left (ht1.trans ht2.symm) hlen)

/-! ### Parser step lemmas -/

theorem parseStep_of_not_label (st : PendRec × List Sentence) (l : List Char)
    (h : isLabelLine l = false) : parseStep st l = st := by
  simp only [isLabelLine, isJPLine, isENLine, Bool.or_eq_false_iff] at h
  obtain ⟨⟨h1, h3⟩, h2, h4⟩ := h
  simp [parseStep, h1, h2, h3, h4]

theorem foldl_parseStep_of_not_label (ls : List (List Char)) :
    ∀ st : PendRec × List Sentence, (∀ l ∈ ls, isLabelLine l = false) →
      ls.foldl parseStep st = st := by
  induction ls with
  | nil => intro st _; rfl
  | cons l ls ih =>
    intro st h
    rw [List.foldl_cons, parseStep_of_not_label st l (h l (List.mem_cons_self l ls))]
    exact ih st (fun x hx => h x (List.mem_cons_of_mem l hx))

theorem parseStep_snd_of_not_en (st : PendRec × List Sentence) (l : List Char)
    (h : isENLine l = false) : (parseStep st l).2 = st.2 := by
  simp only [isENLine, Bool.or_eq_false_iff] at h
  obtain ⟨h2, h4⟩ := h
  by_cases c1 : startsWithList (pyStrip l) labelS1JP
  · simp [parseStep, c1]
  · by_cases c3 : startsWithList (pyStrip l) labelS2JP
    · simp [parseStep, c1, c3, h2]
    · simp [parseStep, c1, c3, h2, h4]

theorem foldl_parseStep_snd_of_not_en (ls : List (List Char)) :
    ∀ st : PendRec × List Sentence, (∀ l ∈ ls, isENLine l = false) →
      (ls.foldl parseStep st).2 = st.2 := by
  induction ls with
  | nil => intro st _; rfl
  | cons l ls ih =>
    intro st h
    rw [List.foldl_cons,
      ih (parseStep st l) (fun x hx => h x (List.mem_cons_of_mem l hx))]
    exact parseStep_snd_of_not_en st l (h l (List.mem_cons_self l ls))

theorem parseStep_of_no_jp (st : PendRec × List Sentence) (l : List Char)
    (hst : st.1.japanese = none) (h : isJPLine l = false) :
    (parseStep st l).1.japanese = none ∧ (parseStep st l).2 = st.2 := by
  simp only [isJPLine, Bool.or_eq_false_iff] at h
  obtain ⟨h1, h3⟩ := h
  by_cases c2 : startsWithList (pyStrip l) labelS1EN
  · simp [parseStep, h1, h3, c2, hst]
  · by_cases c4 : startsWithList (pyStrip l) labelS2EN
    · simp [parseStep, h1, h3, c2, c4, hst]
    · simp [parseStep, h1, h3, c2, c4, hst]

theorem foldl_parseStep_of_no_jp (ls : List (List Char)) :
    ∀ st : PendRec × List Sentence, st.1.japanese = none →
      (∀ l ∈ ls, isJPLine l = false) →
      (ls.foldl parseStep st).1.japanese = none ∧ (ls.foldl parseStep st).2 = st.2 := by
  induction ls with
  | nil => intro st hst _; exact ⟨hst, rfl⟩
  | cons l ls ih =>
    intro st hst h
    have hstep := parseStep_of_no_jp st l hst (h l (List.mem_cons_self l ls))
    have hrest := ih (parseStep st l) hstep.1 (fun x hx => h x (List.mem_cons_of_mem l hx))
    rw [List.foldl_cons]
    exact ⟨hrest.1, hrest.2.trans hstep.2⟩

theorem labelS1JP_length : labelS1JP.length = 13 := by decide
theorem labelS1EN_length : labelS1EN.length = 13 := by decide
theorem labelS2JP_length : labelS2JP.length = 13 := by decide
theorem labelS2EN_length : labelS2EN.length = 13 := by decide

theorem parseStep_s1jp (st : PendRec × List Sentence) (l : List Char)
    (h : startsWithList (pyStrip l) labelS1JP = true) :
    parseStep st l =
      ({ st.1 with japanese := some (stripLabel labelS1JP (pyStrip l)) }, st.2) := by
  simp [parseStep, h]

theorem parseStep_s1en_some (st : PendRec × List Sentence) (l : List Char)
    (j : List Char) (hj : st.1.japanese = some j)
    (h : startsWithList (pyStrip l) labelS1EN = true) :
    parseStep st l = (⟨none, none⟩, st.2 ++ [⟨j, stripLabel labelS1EN (pyStrip l)⟩]) := by
  have h1 : startsWithList (pyStrip l) labelS1JP = false :=
    startsWithList_unique (by decide)
      (labelS1EN_length.trans labelS1JP_length.symm) h
  simp [parseStep, h1, h, hj]

theorem parseStep_s2jp (st : PendRec × List Sentence) (l : List Char)
    (h : startsWithList (pyStrip l) labelS2JP = true) :
    parseStep st l =
      ({ st.1 with japanese := some (stripLabel labelS2JP (pyStrip l)) }, st.2) := by
  have h1 : startsWithList (pyStrip l) labelS1JP = false :=
    startsWithList_unique (by decide)
      (labelS2JP_length.trans labelS1JP_length.symm) h
  have h2 : startsWithList (pyStrip l) labelS1EN = false :=
    startsWithList_unique (by decide)
      (labelS2JP_length.trans labelS1EN_length.symm) h
  simp [parseStep, h1, h2, h]

theorem parseStep_s2en_some (st : PendRec × List Sentence) (l : List Char)
    (j : List Char) (hj : st.1.japanese = some j)
    (h : startsWithList (pyStrip l) labelS2EN = true) :
    parseStep st l =
      ({ st.1 with english := some (stripLabel labelS2EN (pyStrip l)) },
        st.2 ++ [⟨j, stripLabel labelS2EN (pyStrip l)⟩]) := by
  have h1 : startsWithList (pyStrip l) labelS1JP = false :=
    startsWithList_unique (by decide)
      (labelS2EN_length.trans labelS1JP_length.symm) h
  have h2 : startsWithList (pyStrip l) labelS1EN = false :=
    startsWithList_unique (by decide)
      (labelS2EN_length.trans labelS1EN_length.symm) h
  have h3 : startsWithList (pyStrip l) labelS2JP = false :=
    startsWithList_unique (by decide)
      (labelS2EN_length.trans labelS2JP_length.symm) h
  simp [parseStep, h1, h2, h3, h, hj]

/-! ### Cleaner lemmas -/

theorem cleanItemSentences_loop (target : List Char) (ss : List Sentence) :
    ∀ (vs : List Sentence) (wc : Nat),
      ss.foldl
        (fun acc s =>
          (acc.1 ++ [s], if sentenceValid target s then acc.2 else acc.2 + 1))
        (vs, wc) =
      (vs ++ ss, wc + ss.countP (fun s => !sentenceValid target s)) := by
  induction ss with
  | nil => intro vs wc; simp
  | cons s ss ih =>
    intro vs wc
    rw [List.foldl_cons, ih, List.countP_cons]
    by_cases h : sentenceValid target s
    · simp [h]
    · simp only [Bool.not_eq_true] at h
      simp [h]
      omega

theorem cleanItemSentences_eq (target : List Char) (wc : Nat) (ss : List Sentence) :
    cleanItemSentences target wc ss =
      (ss, wc + ss.countP (fun s => !sentenceValid target s)) := by
  unfold cleanItemSentences
  rw [cleanItemSentences_loop]
  simp

theorem cleanStep_eq (acc : List SentenceSet × Nat) (item : SentenceSet) :
    cleanStep acc item =
      if item.sentences.isEmpty then
        (acc.1, acc.2 + item.sentences.countP (fun s => !sentenceValid item.word s))
      else
        (acc.1 ++ [item],
          acc.2 + item.sentences.countP (fun s => !sentenceValid item.word s)) := by
  have heta : { item with sentences := item.sentences } = item := rfl
  unfold cleanStep
  simp only [cleanItemSentences_eq, heta]

theorem cleanData_loop (data : List SentenceSet) :
    ∀ (cl : List SentenceSet) (wc : Nat),
      data.foldl cleanStep (cl, wc) =
      (cl ++ data.filter (fun it => !it.sentences.isEmpty), wc + totalWarnings data) := by
  induction data with
  | nil => intro cl wc; simp [totalWarnings]
  | cons it data ih =>
    intro cl wc
    rw [List.foldl_cons, cleanStep_eq]
    have hw : totalWarnings (it :: data) =
        it.sentences.countP (fun s => !sentenceValid it.word s) + totalWarnings data := by
      simp [totalWarnings]
    by_cases h : it.sentences.isEmpty
    · have h0 : it.sentences = [] := by
        cases hs : it.sentences
        · rfl
        · rw [hs] at h; simp at h
      rw [if_pos h, ih, List.filter_cons_of_neg (by simp [h])]
      simp [hw, h0]
    · rw [if_neg h, ih, List.filter_cons_of_pos (by simp [h])]
      rw [Prod.mk.injEq]
      constructor
      · simp
      · rw [hw]; omega

theorem cleanData_eq (data : List SentenceSet) :
    cleanData data =
      (data.filter (fun it => !it.sentences.isEmpty), totalWarnings data) := by
  unfold cleanData
  rw [cleanData_loop]
  simp

theorem strictClean_loop (data : List SentenceSet) :
    ∀ (cl : List SentenceSet) (rc : Nat),
      (data.foldl strictStep (cl, rc)).1 =
        cl ++ ((data.map (fun it =>
          { it with sentences := it.sentences.filter (fun s => sentenceValid it.word s) })).filter
            (fun it => !it.sentences.isEmpty)) := by
  induction data with
  | nil => intro cl rc; simp
  | cons it data ih =>
    intro cl rc
    rw [List.foldl_cons]
    by_cases h : (it.sentences.filter (fun s => sentenceValid it.word s)).isEmpty
    · have hstep : strictStep (cl, rc) it =
          (cl, rc + (it.sentences.length -
            (it.sentences.filter (fun s => sentenceValid it.word s)).length)) := by
        unfold strictStep
        rw [if_pos h]
      rw [hstep, ih, List.map_cons, List.filter_cons_of_neg (by simp [h])]
    · have hstep : strictStep (cl, rc) it =
          (cl ++ [{ it with
              sentences := it.sentences.filter (fun s => sentenceValid it.word s) }],
            rc + (it.sentences.length -
              (it.sentences.filter (fun s => sentenceValid it.word s)).length)) := by
        unfold strictStep
        rw [if_neg h]
      rw [hstep, ih, List.map_cons, List.filter_cons_of_pos (by simp [h])]
      simp

theorem strictClean_fst (data : List SentenceSet) :
    (strictClean data).1 =
      (data.map (fun it =>
        { it with sentences := it.sentences.filter (fun s => sentenceValid it.word s) })).filter
          (fun it => !it.sentences.isEmpty) := by
  unfold strictClean
  rw [strictClean_loop]
  simp

theorem parseStep_snd_cases (st : PendRec × List Sentence) (l : List Char) :
    (parseStep st l).2 = st.2 ∨
      (isENLine l = true ∧ ∃ r, (parseStep st l).2 = st.2 ++ [r]) := by
  by_cases c1 : startsWithList (pyStrip l) labelS1JP
  · exact Or.inl (by simp [parseStep, c1])
  · by_cases c2 : startsWithList (pyStrip l) labelS1EN
    · cases hj : st.1.japanese with
      | none => exact Or.inl (by simp [parseStep, c1, c2, hj])
      | some j =>
        exact Or.inr ⟨by simp [isENLine, c2],
          ⟨⟨j, stripLabel labelS1EN (pyStrip l)⟩, by simp [parseStep, c1, c2, hj]⟩⟩
    · by_cases c3 : startsWithList (pyStrip l) labelS2JP
      · exact Or.inl (by simp [parseStep, c1, c2, c3])
      · by_cases c4 : startsWithList (pyStrip l) labelS2EN
        · cases hj : st.1.japanese with
          | none => exact Or.inl (by simp [parseStep, c1, c2, c3, c4, hj])
          | some j =>
            exact Or.inr ⟨by simp [isENLine, c4],
              ⟨⟨j, stripLabel labelS2EN (pyStrip l)⟩,
                by simp [parseStep, c1, c2, c3, c4, hj]⟩⟩
        · exact Or.inl (by simp [parseStep, c1, c2, c3, c4])

theorem foldl_parseStep_snd_append (ls : List (List Char)) :
    ∀ st : PendRec × List Sentence, ∃ t, (ls.foldl parseStep st).2 = st.2 ++ t := by
  induction ls with
  | nil => intro st; exact ⟨[], by simp⟩
  | cons l ls ih =>
    intro st
    obtain ⟨t2, ht2⟩ := ih (parseStep st l)
    rcases parseStep_snd_cases st l with h | ⟨_, r, h⟩
    · exact ⟨t2, by rw [List.foldl_cons, ht2, h]⟩
    · exact ⟨[r] ++ t2, by rw [List.foldl_cons, ht2, h, List.append_assoc]⟩

theorem foldl_parseStep_count (ls : List (List Char)) :
    ∀ st : PendRec × List Sentence,
      (ls.foldl parseStep st).2.length ≤ st.2.length + ls.countP isENLine := by
  induction ls with
  | nil => intro st; simp
  | cons l ls ih =>
    intro st
    rw [List.foldl_cons, List.countP_cons]
    have h2 := ih (parseStep st l)
    rcases parseStep_snd_cases st l with h | ⟨hen, r, h⟩
    · rw [h] at h2
      have : (0:Nat) ≤ if isENLine l = true then 1 else 0 := by positivity
      omega
    · rw [h, List.length_append] at h2
      rw [hen]
      simp only [if_pos rfl]
      simpa [Nat.add_comm, Nat.add_left_comm] using h2

theorem parseStep_english_irrel (st1 st2 : PendRec × List Sentence) (l : List Char)
    (hj : st1.1.japanese = st2.1.japanese) (hs : st1.2 = st2.2) :
    (parseStep st1 l).1.japanese = (parseStep st2 l).1.japanese ∧
    (parseStep st1 l).2 = (parseStep st2 l).2 := by
  by_cases c1 : startsWithList (pyStrip l) labelS1JP
  · simp [parseStep, c1, hs]
  · by_cases c2 : startsWithList (pyStrip l) labelS1EN
    · cases h1 : st1.1.japanese with
      | none =>
        have h2 : st2.1.japanese = none := hj.symm.trans h1
        simp [parseStep, c1, c2, h1, h2, hs]
      | some j =>
        have h2 : st2.1.japanese = some j := hj.symm.trans h1
        simp [parseStep, c1, c2, h1, h2, hs]
    · by_cases c3 : startsWithList (pyStrip l) labelS2JP
      · simp [parseStep, c1, c2, c3, hs]
      · by_cases c4 : startsWithList (pyStrip l) labelS2EN
        · cases h1 : st1.1.japanese with
          | none =>
            have h2 : st2.1.japanese = none := hj.symm.trans h1
            simp [parseStep, c1, c2, c3, c4, h1, h2, hs, hj]
          | some j =>
            have h2 : st2.1.japanese = some j := hj.symm.trans h1
            simp [parseStep, c1, c2, c3, c4, h1, h2, hs, hj]
        · simp [parseStep, c1, c2, c3, c4, hj, hs]

theorem foldl_parseStep_irrel (ls : List (List Char)) :
    ∀ st1 st2 : PendRec × List Sentence,
      st1.1.japanese = st2.1.japanese → st1.2 = st2.2 →
      (ls.foldl parseStep st1).1.japanese = (ls.foldl parseStep st2).1.japanese ∧
      (ls.foldl parseStep st1).2 = (ls.foldl parseStep st2).2 := by
  induction ls with
  | nil => intro st1 st2 hj hs; exact ⟨hj, hs⟩
  | cons l ls ih =>
    intro st1 st2 hj hs
    have hstep := parseStep_english_irrel st1 st2 l hj hs
    rw [List.foldl_cons, List.foldl_cons]
    exact ih (parseStep st1 l) (parseStep st2 l) hstep.1 hstep.2

theorem parseStep_jp_sets (st : PendRec × List Sentence) (l : List Char)
    (h : isJPLine l = true) :
    parseStep st l = ({ st.1 with japanese := some (jpPayload l) }, st.2) := by
  by_cases c1 : startsWithList (pyStrip l) labelS1JP
  · rw [parseStep_s1jp st l c1]
    rw [jpPayload, if_pos c1]
  · have c3 : startsWithList (pyStrip l) labelS2JP = true := by
      rcases Bool.or_eq_true_iff.mp h with h1 | h3
      · exact absurd h1 c1
      · exact h3
    rw [parseStep_s2jp st l c3]
    rw [jpPayload, if_neg c1]

theorem parseStep_en_emits (st : PendRec × List Sentence) (l : List Char)
    (j : List Char) (hj : st.1.japanese = some j) (h : isENLine l = true) :
    ∃ pend : PendRec, parseStep st l = (pend, st.2 ++ [⟨j, enPayload l⟩]) := by
  by_cases c2 : startsWithList (pyStrip l) labelS1EN
  · refine ⟨⟨none, none⟩, ?_⟩
    rw [parseStep_s1en_some st l j hj c2]
    rw [enPayload, if_pos c2]
  · have c4 : startsWithList (pyStrip l) labelS2EN = true := by
      rcases Bool.or_eq_true_iff.mp h with h2 | h4
      · exact absurd h2 c2
      · exact h4
    refine ⟨{ st.1 with english := some (stripLabel labelS2EN (pyStrip l)) }, ?_⟩
    rw [parseStep_s2en_some st l j hj c4]
    rw [enPayload, if_neg c2]

/-! ### Claim theorems -/

/-- C1 (counterexample): the claim says a duplicated label line contributes
no `Sentence` record.  In `dupENCompletion` the only well-formed pair is the
first two lines, so the claim predicts at most one record; but because only
the `SENTENCE1_EN` branch clears the pending buffer, the duplicated
`SENTENCE2_EN` line re-emits a second record reusing the pending Japanese
text. -/
theorem duplicate_s2en_reemits_record :
    parseResponse dupENCompletion =
      [⟨str "危ない", str "Danger"⟩, ⟨str "危ない", str "Run"⟩] ∧
    ¬ (parseResponse dupENCompletion).length ≤ 1 := by
  decide

/-- C1 (amended), over every completion string: (1) every emitted record is
produced by an English-labeled line, so the records never outnumber the
English-labeled lines — in particular a Japanese-labeled line with no
subsequent English-labeled line leaves no record, and a completion with no
English-labeled line yields no records at all; (2) a leading segment with no
Japanese-labeled line (its English labels are out of order) emits nothing
and does not disturb the parse of the remaining lines; (3) a well-formed
Japanese/English label pair, separated only by unlabeled lines, is still
emitted whatever malformed material precedes or follows it; and the parse is
total.  The exception forced by the counterexample — an English label
striking while the buffer still holds a Japanese field re-emits a record,
because only the `SENTENCE1_EN` branch clears the buffer — is consistent
with (1). -/
theorem unpaired_labels_dropped (response : List Char) :
    (parseResponse response).length ≤
      (splitNewline (pyStrip response)).countP isENLine ∧
    (∀ A rest, splitNewline (pyStrip response) = A ++ rest →
      (∀ l ∈ A, isJPLine l = false) → parseResponse response = parseLines rest) ∧
    (∀ A B C jp en, splitNewline (pyStrip response) = A ++ jp :: (B ++ en :: C) →
      isJPLine jp = true → isENLine en = true →
      (∀ l ∈ B, isLabelLine l = false) →
      Sentence.mk (jpPayload jp) (enPayload en) ∈ parseResponse response) := by
  unfold parseResponse parseLines
  refine ⟨?_, ?_, ?_⟩
  · simpa using foldl_parseStep_count (splitNewline (pyStrip response)) ⟨⟨none, none⟩, []⟩
  · intro A rest hsplit hA
    rw [hsplit, List.foldl_append]
    have hst := foldl_parseStep_of_no_jp A ⟨⟨none, none⟩, []⟩ rfl hA
    exact (foldl_parseStep_irrel rest _ ⟨⟨none, none⟩, []⟩ hst.1 hst.2).2
  · intro A B C jp en hsplit hjp hen hB
    rw [hsplit, List.foldl_append, List.foldl_cons, parseStep_jp_sets _ _ hjp,
      List.foldl_append, foldl_parseStep_of_not_label B _ hB, List.foldl_cons]
    obtain ⟨pend, hpe⟩ := parseStep_en_emits
      ({ (List.foldl parseStep (⟨⟨none, none⟩, []⟩ : PendRec × List Sentence) A).1 with
          japanese := some (jpPayload jp) },
        (List.foldl parseStep (⟨⟨none, none⟩, []⟩ : PendRec × List Sentence) A).2)
      en (jpPayload jp) rfl hen
    rw [hpe]
    obtain ⟨t, ht⟩ := foldl_parseStep_snd_append C _
    rw [ht]
    simp

theorem unpaired_labels_dropped_witness :
    (parseResponse mixedCompletion).length ≤
      (splitNewline (pyStrip mixedCompletion)).countP isENLine ∧
    parseResponse mixedCompletion =
      parseLines [str "SENTENCE1_JP: 危ない", str "blah",
        str "SENTENCE1_EN: Danger", str "SENTENCE2_JP: 捨てられた"] ∧
    Sentence.mk (jpPayload (str "SENTENCE1_JP: 危ない"))
        (enPayload (str "SENTENCE1_EN: Danger")) ∈
      parseResponse mixedCompletion :=
  ⟨(unpaired_labels_dropped mixedCompletion).1,
   (unpaired_labels_dropped mixedCompletion).2.1 [str "SENTENCE1_EN: Out"]
     [str "SENTENCE1_JP: 危ない", str "blah",
       str "SENTENCE1_EN: Danger", str "SENTENCE2_JP: 捨てられた"]
     (by decide) (by decide),
   (unpaired_labels_dropped mixedCompletion).2.2 [str "SENTENCE1_EN: Out"]
     [str "blah"] [str "SENTENCE2_JP: 捨てられた"]
     (str "SENTENCE1_JP: 危ない") (str "SENTENCE1_EN: Danger")
     (by decide) (by decide) (by decide) (by decide)⟩

/-- C2: for every completion whose stripped line split consists of a
`SENTENCE1_JP`-labeled line, a `SENTENCE1_EN`-labeled line, a
`SENTENCE2_JP`-labeled line and a `SENTENCE2_EN`-labeled line in that order
(with only unlabeled lines around them), the parser emits exactly two
`Sentence` records, each pairing a Japanese line with its following English
line, in input order. -/
theorem parser_emits_two_pairs
    (response : List Char) (pre mid1 mid2 mid3 post : List (List Char))
    (l1 l2 l3 l4 : List Char)
    (hsplit : splitNewline (pyStrip response) =
      pre ++ [l1] ++ mid1 ++ [l2] ++ mid2 ++ [l3] ++ mid3 ++ [l4] ++ post)
    (hpre : ∀ l ∈ pre, isLabelLine l = false)
    (hm1 : ∀ l ∈ mid1, isLabelLine l = false)
    (hm2 : ∀ l ∈ mid2, isLabelLine l = false)
    (hm3 : ∀ l ∈ mid3, isLabelLine l = false)
    (hpost : ∀ l ∈ post, isLabelLine l = false)
    (h1 : startsWithList (pyStrip l1) labelS1JP = true)
    (h2 : startsWithList (pyStrip l2) labelS1EN = true)
    (h3 : startsWithList (pyStrip l3) labelS2JP = true)
    (h4 : startsWithList (pyStrip l4) labelS2EN = true) :
    parseResponse response =
      [⟨stripLabel labelS1JP (pyStrip l1), stripLabel labelS1EN (pyStrip l2)⟩,
       ⟨stripLabel labelS2JP (pyStrip l3), stripLabel labelS2EN (pyStrip l4)⟩] := by
  unfold parseResponse parseLines
  rw [hsplit]
  simp only [List.foldl_append, List.foldl_cons, List.foldl_nil]
  rw [foldl_parseStep_of_not_label pre _ hpre]
  rw [parseStep_s1jp _ _ h1]
  rw [foldl_parseStep_of_not_label mid1 _ hm1]
  rw [parseStep_s1en_some _ _ (stripLabel labelS1JP (pyStrip l1)) rfl h2]
  rw [foldl_parseStep_of_not_label mid2 _ hm2]
  rw [parseStep_s2jp _ _ h3]
  rw [foldl_parseStep_of_not_label mid3 _ hm3]
  rw [parseStep_s2en_some _ _ (stripLabel labelS2JP (pyStrip l3)) rfl h4]
  rw [foldl_parseStep_of_not_label post _ hpost]
  simp

theorem parser_emits_two_pairs_witness :
    parseResponse exResponse =
      [⟨str "ゾンビに噛まれたので、急いで病院に行きました！", str "I was bitten by a zombie"⟩,
       ⟨str "この病院の院長は宇宙人です", str "The director is an alien"⟩] :=
  (parser_emits_two_pairs exResponse [] [] [] [] [] exLine1 exLine2 exLine3 exLine4
    (by decide) (by decide) (by decide) (by decide) (by decide) (by decide)
    (by decide) (by decide) (by decide) (by decide)).trans (by decide)

/-- C3: the validator's correctness predicate holds if and only if the target
word's exact written characters are a literal substring of the sentence's
japanese field; any form that is not an exact substring (e.g. a conjugated
variant) fails the predicate. -/
theorem validator_predicate_iff_substring (target : List Char) (s : Sentence) :
    sentenceValid target s = true ↔ target <:+: s.japanese := by
  unfold sentenceValid
  exact strContains_iff s.japanese target

/-- C4 (counterexample): the claim says that under the warn-only policy no
vocabulary item present in the input is dropped from the output; but the
`if valid_sentences:` guard drops any item whose sentences list is empty. -/
theorem warn_only_drops_empty_item :
    emptyItem ∈ [emptyItem] ∧ emptyItem ∉ (cleanData [emptyItem]).1 := by
  decide

/-- C4 (amended): under the warn-only policy every sentence failing the
predicate is kept (each surviving item is exactly its input item, sentences
unchanged), the failing sentences across the whole collection are counted;
every item with a non-empty sentences list is kept, but an item whose
sentences list is empty is dropped by the `if valid_sentences:` guard. -/
theorem warn_only_keeps_failing_sentences (data : List SentenceSet) :
    (cleanData data).1 = data.filter (fun it => !it.sentences.isEmpty) ∧
    (cleanData data).2 = totalWarnings data := by
  rw [cleanData_eq]
  exact ⟨rfl, rfl⟩

/-- C5: the strict-filter policy is selectable alongside warn-only via
`runValidator`; under it every sentence failing the predicate is discarded
(each output item carries exactly the predicate-filtered sentences of its
input item) and every item left with zero surviving sentences is dropped
from the output collection. -/
theorem strict_policy_filters_and_drops (data : List SentenceSet) :
    (runValidator .strict data).1 =
      (data.map (fun it =>
        { it with sentences := it.sentences.filter (fun s => sentenceValid it.word s) })).filter
        (fun it => !it.sentences.isEmpty) ∧
    (runValidator .strict data).1.all
      (fun it => !it.sentences.isEmpty &&
        it.sentences.all (fun s => sentenceValid it.word s)) = true := by
  have hdef : runValidator .strict data = strictClean data := rfl
  rw [hdef]
  refine ⟨strictClean_fst data, ?_⟩
  rw [strictClean_fst data, List.all_eq_true]
  intro x hx
  rw [List.mem_filter] at hx
  obtain ⟨hxm, hxe⟩ := hx
  rw [List.mem_map] at hxm
  obtain ⟨it, _, rfl⟩ := hxm
  rw [Bool.and_eq_true]
  refine ⟨hxe, ?_⟩
  rw [List.all_eq_true]
  intro s hs
  exact List.of_mem_filter hs

/-- C6: a backend failure for one item is caught and resolved to a
`SentenceSet` with an empty sentences list; the batch still produces one
result per input item, and every other item's result is exactly the
synthesis of its own word — one failure never aborts the batch. -/
theorem backend_failure_isolated (vocab : List VocabWord)
    (backend : VocabWord → Except Unit (List Char)) (i : Nat)
    (hi : i < vocab.length)
    (hfail : backend (vocab.get ⟨i, hi⟩) = .error ()) :
    (generateBatch vocab backend).length = vocab.length ∧
    ((generateBatch vocab backend).get
      ⟨i, by simpa [generateBatch] using hi⟩).sentences = [] ∧
    ∀ (j : Nat) (hj : j < vocab.length),
      (generateBatch vocab backend).get ⟨j, by simpa [generateBatch] using hj⟩ =
        generate_sentences (vocab.get ⟨j, hj⟩) (backend (vocab.get ⟨j, hj⟩)) := by
  refine ⟨by simp [generateBatch], ?_, ?_⟩
  · have hg : (generateBatch vocab backend).get ⟨i, by simpa [generateBatch] using hi⟩ =
        generate_sentences (vocab.get ⟨i, hi⟩) (backend (vocab.get ⟨i, hi⟩)) := by
      simp [generateBatch, List.get_eq_getElem]
    rw [hg, hfail]
    rfl
  · intro j hj
    simp [generateBatch, List.get_eq_getElem]

theorem backend_failure_isolated_witness :
    (generateBatch [exWord] (fun _ => Except.error ())).length = [exWord].length ∧
    ((generateBatch [exWord] (fun _ => Except.error ())).get ⟨0, by decide⟩).sentences = [] :=
  ⟨(backend_failure_isolated [exWord] (fun _ => Except.error ()) 0 (by decide) rfl).1,
   (backend_failure_isolated [exWord] (fun _ => Except.error ()) 0 (by decide) rfl).2.1⟩

/-- C7: an archive record is written if and only if at least one review in
the batch succeeded, the pending collection is deleted if and only if at
least one review succeeded, when every review fails the pending collection
is left in place (and no archive is written), and any written archive record
carries the success/failure tally and the full batch. -/
theorem archive_iff_any_success (reviews : List EasyReview) (review : Int → Bool) :
    ((syncMain reviews review).archive.isSome = true ↔
      0 < (syncTally reviews review).1) ∧
    ((syncMain reviews review).pendingRemoved = true ↔
      0 < (syncTally reviews review).1) ∧
    ((syncTally reviews review).1 = 0 →
      (syncMain reviews review).pendingRemoved = false ∧
      (syncMain reviews review).archive = none) ∧
    ∀ a : ArchiveRecord, (syncMain reviews review).archive = some a →
      a.success = (syncTally reviews review).1 ∧
      a.failed = (syncTally reviews review).2 ∧ a.items = reviews := by
  unfold syncMain
  by_cases hemp : reviews.isEmpty
  · have h0 : reviews = [] := by
      cases hr : reviews
      · rfl
      · rw [hr] at hemp; simp at hemp
    subst h0
    simp [syncTally]
  · rw [if_neg hemp]
    by_cases hpos : 0 < (syncTally reviews review).1
    · rw [if_pos hpos]
      refine ⟨by simpa using hpos, by simpa using hpos, by omega, ?_⟩
      intro a ha
      simp only [Option.some.injEq] at ha
      rw [← ha]
      exact ⟨rfl, rfl, rfl⟩
    · rw [if_neg hpos]
      simp [hpos]

theorem archive_iff_any_success_witness :
    ((syncMain exReviews exOracle).archive.isSome = true ∧
      (syncMain exReviews exOracle).pendingRemoved = true) ∧
    ((syncMain exReviews failOracle).pendingRemoved = false ∧
      (syncMain exReviews failOracle).archive = none) ∧
    ((⟨2, 1, exReviews⟩ : ArchiveRecord).success = (syncTally exReviews exOracle).1 ∧
      (⟨2, 1, exReviews⟩ : ArchiveRecord).failed = (syncTally exReviews exOracle).2 ∧
      (⟨2, 1, exReviews⟩ : ArchiveRecord).items = exReviews) :=
  ⟨⟨((archive_iff_any_success exReviews exOracle).1).mpr (by decide),
    ((archive_iff_any_success exReviews exOracle).2.1).mpr (by decide)⟩,
   (archive_iff_any_success exReviews failOracle).2.2.1 (by decide),
   (archive_iff_any_success exReviews exOracle).2.2.2 ⟨2, 1, exReviews⟩ (by decide)⟩

/-- C8: the vocabulary collection produced by `extract_vocab_data` is sorted
ascending by the pair `(srs_stage, level)`: every two adjacent output items
are related by the lexicographic order `vocabKeyLe`. -/
theorem vocab_sorted_by_stage_level (assignments : List Assignment)
    (subjects : Int → Option Subject) (i : Nat)
    (h : i + 1 < (extract_vocab_data assignments subjects).length) :
    vocabKeyLe ((extract_vocab_data assignments subjects).get ⟨i, by omega⟩)
      ((extract_vocab_data assignments subjects).get ⟨i + 1, h⟩) := by
  have hs : List.Pairwise vocabKeyLe (extract_vocab_data assignments subjects) := by
    unfold extract_vocab_data
    exact List.sorted_insertionSort vocabKeyLe _
  exact List.pairwise_iff_get.mp hs ⟨i, by omega⟩ ⟨i + 1, h⟩ (by simp)

theorem vocab_sorted_by_stage_level_witness :
    vocabKeyLe ((extract_vocab_data exAssignments exSubjects).get ⟨0, by decide⟩)
      ((extract_vocab_data exAssignments exSubjects).get ⟨1, by decide⟩) :=
  vocab_sorted_by_stage_level exAssignments exSubjects 0 (by decide)

/-- C9: the Packager's cleaning step is idempotent: applying it to its own
output yields an identical collection, hence identical word and sentence
counts, so re-running it on an unchanged input persists an identical
artifact. -/
theorem packager_idempotent (data : List SentenceSet) :
    (cleanData (cleanData data).1).1 = (cleanData data).1 ∧
    (cleanData (cleanData data).1).1.length = (cleanData data).1.length ∧
    ((cleanData (cleanData data).1).1.map (fun it => it.sentences.length)).sum =
      ((cleanData data).1.map (fun it => it.sentences.length)).sum := by
  have h : (cleanData (cleanData data).1).1 = (cleanData data).1 := by
    simp [cleanData_eq, List.filter_filter]
  exact ⟨h, by rw [h], by rw [h]⟩

/-- C10: the `SentenceSet` returned by `generate_sentences` carries the
input item's metadata unchanged — `subject_id`, `word`, `reading`, `meaning`
and `level` equal the item's `id`, `characters`, `reading`, `meaning` and
`level` — on both the success path and the backend-failure path. -/
theorem synthesizer_preserves_metadata (word : VocabWord)
    (r : Except Unit (List Char)) :
    (generate_sentences word r).subject_id = word.id ∧
    (generate_sentences word r).word = word.characters ∧
    (generate_sentences word r).reading = word.reading ∧
    (generate_sentences word r).meaning = word.meaning ∧
    (generate_sentences word r).level = word.level := by
  cases r <;> exact ⟨rfl, rfl, rfl, rfl, rfl⟩
